import Mathlib

/-!
Verification of the vesting ledger engine of the blockchain-vesting-app
repository against its specification.

The embedding models, faithfully to the source:
* `src/contracts/TokenVestingOptimized.sol` — the optimized contract
  (Solidity 0.8 checked arithmetic, with the contract's `unchecked` blocks
  modelled as wrapping arithmetic modulo 2^256);
* `src/contracts/TokenVesting.sol` — the original contract (fully checked
  arithmetic; `release`/`revoke` take a caller-supplied token argument);
* `src/unnamed/part_006` — the query-layer `calculateVestingRelease`
  utility (arbitrary-precision BigInt arithmetic, so values can go
  negative; modelled over `ℤ`).

Addresses, token identities and vesting ids are modelled as naturals;
`0` is `address(0)`.  `uint256` values are naturals together with the
explicit wrap/overflow behaviour of each arithmetic operation: an
operation in an `unchecked` block wraps modulo `W = 2^256`, a checked
operation reverts (modelled as `Option.none`) on overflow or underflow.
-/

namespace Vesting

/-- The modulus of the 256-bit EVM word. -/
def W : ℕ := 2 ^ 256

/-- The `VestingSchedule` struct shared by both contract variants
(`src/contracts/TokenVestingOptimized.sol` lines 31-42). -/
structure VestingSchedule where
  beneficiary : ℕ
  token : ℕ
  totalAmount : ℕ
  released : ℕ
  startTime : ℕ
  cliff : ℕ
  duration : ℕ
  revocable : Bool
  revoked : Bool
  deriving DecidableEq

/-- The all-zero struct a Solidity mapping yields for an absent key. -/
def zeroSchedule : VestingSchedule :=
  ⟨0, 0, 0, 0, 0, 0, 0, false, false⟩

/-- Wrapping 256-bit subtraction, the semantics of `a - b` inside an
`unchecked` block for `a, b < 2^256`. -/
def subWrap (a b : ℕ) : ℕ := (a + W - b % W) % W

/-- Shallow embedding of `TokenVestingOptimized._computeReleasableAmount`
(lines 267-293).  The comparisons against `startTime + cliff` and
`startTime + duration` use checked addition (they are outside the
`unchecked` blocks), so the function reverts (`none`) if either sum
overflows; the multiplication, division and both subtractions are inside
`unchecked` blocks and wrap modulo `2^256`. -/
def computeReleasableAmountOpt (s : VestingSchedule) (currentTime : ℕ) : Option ℕ :=
  if W ≤ s.startTime + s.cliff then none
  else if currentTime < s.startTime + s.cliff then some 0
  else if W ≤ s.startTime + s.duration then none
  else if s.startTime + s.duration ≤ currentTime then
    some (subWrap s.totalAmount s.released)
  else
    some (subWrap (s.totalAmount * (currentTime - s.startTime) % W / s.duration) s.released)

/-- Shallow embedding of the public `TokenVestingOptimized.computeReleasableAmount`
(lines 253-261): returns `0` for a revoked schedule before any arithmetic. -/
def computeReleasableAmountPub (s : VestingSchedule) (currentTime : ℕ) : Option ℕ :=
  if s.revoked then some 0 else computeReleasableAmountOpt s currentTime

/-- Shallow embedding of `TokenVesting._computeReleasableAmount`
(lines 134-156).  Every arithmetic operation here is checked (Solidity
0.8 default), so any overflowing addition or multiplication and any
underflowing subtraction reverts (`none`). -/
def computeReleasableAmountLegacy (s : VestingSchedule) (currentTime : ℕ) : Option ℕ :=
  if W ≤ s.startTime + s.cliff then none
  else if currentTime < s.startTime + s.cliff then some 0
  else if W ≤ s.startTime + s.duration then none
  else if s.startTime + s.duration ≤ currentTime then
    if s.released ≤ s.totalAmount then some (s.totalAmount - s.released) else none
  else
    if s.totalAmount * (currentTime - s.startTime) < W then
      let vested := s.totalAmount * (currentTime - s.startTime) / s.duration
      if s.released ≤ vested then some (vested - s.released) else none
    else none

/-- The vested wei computed by `calculateVestingRelease` in
`src/unnamed/part_006` (lines 14-61): `0` before the cliff, the full
amount from `startTime + duration` on, and otherwise the exact
arbitrary-precision floor `totalAmount * (t - startTime) / duration`.
The function does not consult `revoked`. -/
def vestedTS (s : VestingSchedule) (currentTime : ℕ) : ℕ :=
  if currentTime < s.startTime + s.cliff then 0
  else if s.startTime + s.duration ≤ currentTime then s.totalAmount
  else s.totalAmount * (currentTime - s.startTime) / s.duration

/-- The claimable wei computed by `calculateVestingRelease` in
`src/unnamed/part_006`.  BigInt arithmetic can go negative, hence `ℤ`.
The pre-cliff branch returns `0`; the fully-vested branch returns the
unfloored `totalAmount - released`; the linear branch floors
`vested - released` at `0` (the source's `claimableWei > 0n` guard).
The function does not consult `revoked`. -/
def claimableTS (s : VestingSchedule) (currentTime : ℕ) : ℤ :=
  if currentTime < s.startTime + s.cliff then 0
  else if s.startTime + s.duration ≤ currentTime then
    (s.totalAmount : ℤ) - (s.released : ℤ)
  else
    let vestedWei : ℤ := (s.totalAmount : ℤ) * ((currentTime - s.startTime : ℕ) : ℤ) / (s.duration : ℤ)
    let claimableWei : ℤ := vestedWei - (s.released : ℤ)
    if 0 < claimableWei then claimableWei else 0

/-- A token movement performed through the custody facility:
which asset, to whom, how much. -/
structure Transfer where
  token : ℕ
  dest : ℕ
  amount : ℕ
  deriving DecidableEq

/-- The contract storage of `TokenVestingOptimized`, plus the custody
facility's view of the contract (the per-token ERC20 balance held by the
contract) and the `Ownable`/`Pausable` state.  The mappings are
association lists in which an update prepends a binding and `lookup`
takes the first match, mirroring mapping assignment. -/
structure LedgerState where
  owner : ℕ
  paused : Bool
  schedules : List (ℕ × VestingSchedule)
  benefIndex : List (ℕ × List ℕ)
  lockedTotal : List (ℕ × ℕ)
  custody : List (ℕ × ℕ)
  count : ℕ
  deriving DecidableEq

/-- Reading `vestingSchedules[vestingId]`: a Solidity mapping yields the
all-zero struct for an absent key. -/
def lookupSched (st : LedgerState) (vestingId : ℕ) : VestingSchedule :=
  (st.schedules.lookup vestingId).getD zeroSchedule

/-- Reading a `mapping(address => uint256)` (locked totals, custody balances). -/
def getAmt (m : List (ℕ × ℕ)) (k : ℕ) : ℕ := (m.lookup k).getD 0

/-- Writing a `mapping(address => uint256)` entry. -/
def setAmt (m : List (ℕ × ℕ)) (k v : ℕ) : List (ℕ × ℕ) := (k, v) :: m

/-- `beneficiarySchedules[b].push(vestingId)` (Solidity array push appends). -/
def pushIndex (idx : List (ℕ × List ℕ)) (b vestingId : ℕ) : List (ℕ × List ℕ) :=
  (b, ((idx.lookup b).getD []) ++ [vestingId]) :: idx

/-- The id computed by `keccak256(abi.encodePacked(beneficiary, token,
amount, startTime, block.timestamp, vestingSchedulesCount))` at creation
(`TokenVestingOptimized.sol` lines 109-118), modelled as an injective
pairing of the packed fields: keccak collisions are assumed impossible,
which is what the source's collision check intends. -/
def genId (beneficiary token amount startTime ts count : ℕ) : ℕ :=
  Nat.pair beneficiary
    (Nat.pair token (Nat.pair amount (Nat.pair startTime (Nat.pair ts count))))

/-- Shallow embedding of `TokenVestingOptimized.createVestingSchedule`
(lines 91-160).  `none` models a revert: failed modifier or `require`,
or checked-arithmetic overflow.  The source's sequence of modifiers and
`require`s is folded into one conjunction in source order (a transaction
succeeds exactly when all of them hold, and the resulting state is the
same); `amount < W` models the `uint256` calldata bound on `amount`, and
`getAmt st.lockedTotal token + amount < W` the checked
`totalLockedTokens[token] += amount`.  The custody `safeTransferFrom`
from the owner into the contract is modelled as always succeeding, and
credits the contract's balance. -/
def createVestingSchedule (st : LedgerState)
    (caller beneficiary token amount startTime cliff duration : ℕ)
    (revocable : Bool) (now : ℕ) : Option (LedgerState × ℕ) :=
  if caller = st.owner ∧ st.paused = false
      ∧ beneficiary ≠ 0 ∧ token ≠ 0 ∧ amount ≠ 0 ∧ duration ≠ 0
      ∧ cliff ≤ duration ∧ now ≤ startTime ∧ amount < W
      ∧ (lookupSched st (genId beneficiary token amount startTime now st.count)).beneficiary = 0
      ∧ getAmt st.lockedTotal token + amount < W
  then
    some ({ st with
      custody := setAmt st.custody token (getAmt st.custody token + amount)
      lockedTotal := setAmt st.lockedTotal token (getAmt st.lockedTotal token + amount)
      schedules := (genId beneficiary token amount startTime now st.count,
        ⟨beneficiary, token, amount, 0, startTime, cliff, duration, revocable, false⟩)
        :: st.schedules
      benefIndex := pushIndex st.benefIndex beneficiary
        (genId beneficiary token amount startTime now st.count)
      count := st.count + 1 }, genId beneficiary token amount startTime now st.count)
  else none

/-- The per-entry creation loop of `batchCreateVestingSchedules`
(lines 195-245): each entry is validated (`beneficiary != 0`,
`amount > 0`) and then written, with no collision check; the first
failing entry reverts the whole call. -/
def batchLoop (st : LedgerState) (token : ℕ) (pairs : List (ℕ × ℕ))
    (startTime cliff duration : ℕ) (revocable : Bool) (now : ℕ) : Option LedgerState :=
  match pairs with
  | [] => some st
  | (beneficiary, amount) :: rest =>
    if beneficiary ≠ 0 ∧ amount ≠ 0 then
      batchLoop { st with
        schedules := (genId beneficiary token amount startTime now st.count,
          ⟨beneficiary, token, amount, 0, startTime, cliff, duration, revocable, false⟩)
          :: st.schedules
        benefIndex := pushIndex st.benefIndex beneficiary
          (genId beneficiary token amount startTime now st.count)
        count := st.count + 1 } token rest startTime cliff duration revocable now
    else none

/-- Shallow embedding of `TokenVestingOptimized.batchCreateVestingSchedules`
(lines 165-248): header validation, one checked summation of the amounts,
one aggregate custody transfer and locked-total update, then the per-entry
creation loop.  A failure anywhere reverts the whole call (`none`). -/
def batchCreateVestingSchedules (st : LedgerState) (caller token : ℕ)
    (beneficiaries amounts : List ℕ) (startTime cliff duration : ℕ)
    (revocable : Bool) (now : ℕ) : Option LedgerState :=
  if caller = st.owner ∧ st.paused = false
      ∧ beneficiaries.length = amounts.length ∧ beneficiaries.length ≠ 0
      ∧ token ≠ 0 ∧ duration ≠ 0 ∧ cliff ≤ duration ∧ now ≤ startTime
      ∧ amounts.sum < W ∧ getAmt st.lockedTotal token + amounts.sum < W
  then
    batchLoop { st with
        custody := setAmt st.custody token (getAmt st.custody token + amounts.sum)
        lockedTotal := setAmt st.lockedTotal token (getAmt st.lockedTotal token + amounts.sum) }
      token (beneficiaries.zip amounts) startTime cliff duration revocable now
  else none

/-- Shallow embedding of `TokenVestingOptimized.release` (lines 299-318).
State is updated before the external transfer; the transfer is of the
schedule's stored token to the schedule's beneficiary.  The modifiers,
`require`s, checked `released += r` and `totalLockedTokens[token] -= r`,
and the `safeTransfer` balance requirement are folded into one
conjunction in source order: the transaction succeeds exactly when all
hold, and reverts (`none`) otherwise (including when
`_computeReleasableAmount` itself reverts). -/
def release (st : LedgerState) (vestingId caller now : ℕ) :
    Option (LedgerState × Transfer) :=
  let s := lookupSched st vestingId
  (computeReleasableAmountOpt s now).bind fun r =>
    if st.paused = false ∧ caller = s.beneficiary ∧ s.revoked = false ∧ s.beneficiary ≠ 0
        ∧ r ≠ 0 ∧ s.released + r < W
        ∧ r ≤ getAmt st.lockedTotal s.token ∧ r ≤ getAmt st.custody s.token
    then
      some ({ st with
        schedules := (vestingId, { s with released := s.released + r }) :: st.schedules
        lockedTotal := setAmt st.lockedTotal s.token (getAmt st.lockedTotal s.token - r)
        custody := setAmt st.custody s.token (getAmt st.custody s.token - r) },
        ⟨s.token, s.beneficiary, r⟩)
    else none

/-- Helper for `revoke`, step 1: the new cumulative `released` after the
conditional vested payout (`if (releasableAmount > 0) schedule.released += releasableAmount`). -/
def revokeReleased1 (s : VestingSchedule) (r : ℕ) : ℕ :=
  if 0 < r then s.released + r else s.released

/-- `revoke`, step 1: the custody balances after the conditional
vested payout to the beneficiary. -/
def revokeCustody1 (custody : List (ℕ × ℕ)) (s : VestingSchedule) (r : ℕ) : List (ℕ × ℕ) :=
  if 0 < r then setAmt custody s.token (getAmt custody s.token - r) else custody

/-- `revoke`, step 2: the locked totals after the conditional refund
(`if (refundAmount > 0) totalLockedTokens[token] -= refundAmount`). -/
def revokeLocked2 (lockedTotal : List (ℕ × ℕ)) (s : VestingSchedule) (refund : ℕ) :
    List (ℕ × ℕ) :=
  if 0 < refund then
    setAmt lockedTotal s.token (getAmt lockedTotal s.token - refund)
  else lockedTotal

/-- `revoke`, step 2: the custody balances after the conditional refund
transfer to the owner. -/
def revokeCustody2 (custody1 : List (ℕ × ℕ)) (s : VestingSchedule) (refund : ℕ) :
    List (ℕ × ℕ) :=
  if 0 < refund then setAmt custody1 s.token (getAmt custody1 s.token - refund) else custody1

/-- Shallow embedding of `TokenVestingOptimized.revoke` (lines 324-353).
The vested amount is paid to the beneficiary and added to `released`;
the unvested remainder `totalAmount - released1` is refunded to the
owner and subtracted from the locked total; only then is `revoked` set.
Note the source decrements `totalLockedTokens` by the refund only, not
by the vested payout.  There is no pause guard on `revoke` in the
source.  The modifiers, `require`s, the checked `released += r`, the
checked `totalAmount - released` refund computation, the checked
locked-total decrement and the `safeTransfer` balance requirements are
folded into one conjunction in source order
(`revokeReleased1 s r ≤ s.totalAmount` is the no-underflow guard of the
checked refund subtraction). -/
def revoke (st : LedgerState) (vestingId caller now : ℕ) : Option LedgerState :=
  let s := lookupSched st vestingId
  (computeReleasableAmountOpt s now).bind fun r =>
    if caller = st.owner ∧ s.revocable = true ∧ s.revoked = false ∧ s.beneficiary ≠ 0
        ∧ (0 < r → s.released + r < W ∧ r ≤ getAmt st.custody s.token)
        ∧ revokeReleased1 s r ≤ s.totalAmount
        ∧ (0 < s.totalAmount - revokeReleased1 s r →
            s.totalAmount - revokeReleased1 s r ≤ getAmt st.lockedTotal s.token
            ∧ s.totalAmount - revokeReleased1 s r
              ≤ getAmt (revokeCustody1 st.custody s r) s.token)
    then
      some { st with
        schedules := (vestingId,
          { s with released := revokeReleased1 s r, revoked := true }) :: st.schedules
        lockedTotal := revokeLocked2 st.lockedTotal s (s.totalAmount - revokeReleased1 s r)
        custody := revokeCustody2 (revokeCustody1 st.custody s r) s
          (s.totalAmount - revokeReleased1 s r) }
    else none

/-- Swap-remove of the first occurrence, the semantics of
`_removeBeneficiarySchedule` (lines 475-488): the last element is moved
into the found slot and the array is popped. -/
def swapRemove (l : List ℕ) (x : ℕ) : List ℕ :=
  match l.findIdx? (fun y => y = x) with
  | none => l
  | some i => (l.set i (l.getLast?.getD 0)).dropLast

/-- Shallow embedding of `TokenVestingOptimized.changeBeneficiary`
(lines 359-378).  Owner-only; no pause guard in the source. -/
def changeBeneficiary (st : LedgerState) (vestingId newBeneficiary caller : ℕ) :
    Option LedgerState :=
  let s := lookupSched st vestingId
  if caller = st.owner ∧ newBeneficiary ≠ 0 ∧ s.revoked = false
      ∧ s.beneficiary ≠ 0 ∧ s.beneficiary ≠ newBeneficiary
  then
    some { st with
      schedules := (vestingId, { s with beneficiary := newBeneficiary }) :: st.schedules
      benefIndex := pushIndex
        ((s.beneficiary, swapRemove ((st.benefIndex.lookup s.beneficiary).getD []) vestingId)
          :: st.benefIndex)
        newBeneficiary vestingId }
  else none

/-- `pause()` (lines 383-385); OpenZeppelin `_pause` requires not paused. -/
def pauseOp (st : LedgerState) (caller : ℕ) : Option LedgerState :=
  if caller = st.owner ∧ st.paused = false then some { st with paused := true } else none

/-- `unpause()` (lines 387-389); OpenZeppelin `_unpause` requires paused. -/
def unpauseOp (st : LedgerState) (caller : ℕ) : Option LedgerState :=
  if caller = st.owner ∧ st.paused = true then some { st with paused := false } else none

/-- `getVestingSchedule` (lines 405-432): a view returning the struct
stored in the mapping, which is the all-zero struct for an absent id. -/
def getVestingSchedule (st : LedgerState) (vestingId : ℕ) : VestingSchedule :=
  lookupSched st vestingId

/-- `getBeneficiarySchedules` (lines 394-400). -/
def getBeneficiarySchedules (st : LedgerState) (b : ℕ) : List ℕ :=
  (st.benefIndex.lookup b).getD []

/-- The `releasable` field of `getVestingInfo` (line 455):
`schedule.revoked ? 0 : _computeReleasableAmount(schedule)`. -/
def getVestingInfoReleasable (st : LedgerState) (vestingId now : ℕ) : Option ℕ :=
  computeReleasableAmountPub (lookupSched st vestingId) now

/-- The mutating entry points of the optimized contract, used to define
reachable ledger states. -/
inductive Op where
  | create (caller beneficiary token amount startTime cliff duration : ℕ) (revocable : Bool)
  | batchCreate (caller token : ℕ) (beneficiaries amounts : List ℕ)
      (startTime cliff duration : ℕ) (revocable : Bool)
  | release (vestingId caller : ℕ)
  | revoke (vestingId caller : ℕ)
  | changeBeneficiary (vestingId newBeneficiary caller : ℕ)
  | pause (caller : ℕ)
  | unpause (caller : ℕ)

/-- One transaction against the contract at block timestamp `now`. -/
def applyOp (st : LedgerState) (op : Op) (now : ℕ) : Option LedgerState :=
  match op with
  | .create c b tok a s cl d rv =>
    (createVestingSchedule st c b tok a s cl d rv now).map Prod.fst
  | .batchCreate c tok bs amts s cl d rv =>
    batchCreateVestingSchedules st c tok bs amts s cl d rv now
  | .release vestingId c => (release st vestingId c now).map Prod.fst
  | .revoke vestingId c => revoke st vestingId c now
  | .changeBeneficiary vestingId nb c => changeBeneficiary st vestingId nb c
  | .pause c => pauseOp st c
  | .unpause c => unpauseOp st c

/-- The freshly deployed contract: empty storage, unpaused. -/
def initState (owner : ℕ) : LedgerState := ⟨owner, false, [], [], [], [], 0⟩

/-- Ledger states reachable from a freshly deployed contract by a
sequence of successful transactions. -/
inductive Reachable : LedgerState → Prop where
  | init (owner : ℕ) : Reachable (initState owner)
  | step {st st' : LedgerState} (op : Op) (now : ℕ) :
      Reachable st → applyOp st op now = some st' → Reachable st'

/-- The specification's per-asset aggregate: the sum of
`totalAmount - released` over the live, non-revoked schedules holding
the given token. -/
def sumLocked (st : LedgerState) (token : ℕ) : ℕ :=
  (((st.schedules.map Prod.fst).dedup).map (fun vestingId =>
    let s := lookupSched st vestingId
    if s.token = token ∧ s.revoked = false then s.totalAmount - s.released else 0)).sum

/-- Shallow embedding of `TokenVesting.release` (the original variant,
lines 163-177): the transferred token is the caller-supplied `token`
argument, used directly in `safeTransfer` with no check against the
schedule's stored token.  The original contract keeps no locked-total
and has no pause switch; its arithmetic is fully checked.  Only the
schedule store is threaded; the returned `Transfer` records what the
custody facility is asked to move. -/
def releaseLegacy (schedules : List (ℕ × VestingSchedule))
    (vestingId token caller now : ℕ) :
    Option (List (ℕ × VestingSchedule) × Transfer) :=
  let s := (schedules.lookup vestingId).getD zeroSchedule
  (computeReleasableAmountLegacy s now).bind fun r =>
    if caller = s.beneficiary ∧ s.revoked = false ∧ r ≠ 0 ∧ s.released + r < W
    then
      some ((vestingId, { s with released := s.released + r }) :: schedules,
        ⟨token, s.beneficiary, r⟩)
    else none

/-- Externally meaningful steps of a `batchCreateVestingSchedules`
transaction, in execution order. -/
inductive BatchEvent where
  | headerRevert
  | transferIn (token amount : ℕ)
  | lockedUpdate (token amount : ℕ)
  | created (beneficiary amount : ℕ)
  | entryRevert (i : ℕ)
  deriving DecidableEq

/-- The per-entry creation loop of the batch call as an event trace: each
entry's `require`s (lines 199-200) run here, after the aggregate
transfer; the first invalid entry reverts. -/
def batchEventsLoop (i : ℕ) (pairs : List (ℕ × ℕ)) : List BatchEvent :=
  match pairs with
  | [] => []
  | (b, a) :: rest =>
    if b ≠ 0 ∧ a ≠ 0 then BatchEvent.created b a :: batchEventsLoop (i + 1) rest
    else [BatchEvent.entryRevert i]

/-- The ordered trace of steps `batchCreateVestingSchedules` executes
inside one transaction, following the source layout (lines 165-248):
header `require`s and the checked amount summation first, then the one
aggregate `safeTransferFrom` (line 191), then the checked locked-total
update (line 192), and only then the per-entry loop with its per-entry
validation.  A revert event ends the trace; the EVM rolls the state
back, but the trace shows which steps had already executed. -/
def batchCreateEvents (st : LedgerState) (caller token : ℕ)
    (beneficiaries amounts : List ℕ) (startTime cliff duration : ℕ) (now : ℕ) :
    List BatchEvent :=
  if caller = st.owner ∧ st.paused = false
      ∧ beneficiaries.length = amounts.length ∧ beneficiaries.length ≠ 0
      ∧ token ≠ 0 ∧ duration ≠ 0 ∧ cliff ≤ duration ∧ now ≤ startTime
      ∧ amounts.sum < W
  then
    BatchEvent.transferIn token amounts.sum ::
      (if getAmt st.lockedTotal token + amounts.sum < W
        then BatchEvent.lockedUpdate token amounts.sum
          :: batchEventsLoop 0 (beneficiaries.zip amounts)
        else [BatchEvent.headerRevert])
  else [BatchEvent.headerRevert]

/-! Concrete fixtures used by witnesses and counterexamples. -/

/-- A plain linear schedule: 1000 tokens over 1000 seconds, no cliff. -/
def demoSchedule : VestingSchedule := ⟨1, 2, 1000, 0, 0, 0, 1000, true, false⟩

/-- A drifted schedule whose `released` exceeds its vested amount. -/
def wrapSchedule : VestingSchedule := ⟨1, 2, 5, 10, 0, 0, 10, false, false⟩

/-- A revoked schedule with nothing released. -/
def revokedSchedule : VestingSchedule := ⟨1, 2, 100, 0, 0, 0, 10, true, true⟩

/-- A schedule whose `totalAmount * timeElapsed` product overflows the
256-bit word during linear vesting. -/
def overflowSchedule : VestingSchedule := ⟨1, 2, 2 ^ 255, 0, 0, 0, 8, false, false⟩

/-- Beneficiary 3, token 7, 10 tokens over 10 seconds, no cliff. -/
def legacySchedule : VestingSchedule := ⟨3, 7, 10, 0, 0, 0, 10, false, false⟩

/-- A one-schedule ledger state holding `legacySchedule` under id 1. -/
def demoState : LedgerState :=
  { owner := 9, paused := false, schedules := [(1, legacySchedule)]
    benefIndex := [(3, [1])], lockedTotal := [(7, 10)], custody := [(7, 10)], count := 1 }

/-- An empty but paused ledger state. -/
def pausedState : LedgerState := ⟨9, true, [], [], [], [], 0⟩

/-! Basic lemmas about association-list lookups. -/

lemma lookup_mem {α : Type} {l : List (ℕ × α)} {k : ℕ} {v : α}
    (h : l.lookup k = some v) : (k, v) ∈ l := by
  induction l with
  | nil => simp [List.lookup] at h
  | cons p rest ih =>
    obtain ⟨a, b⟩ := p
    rw [List.lookup] at h
    by_cases hk : k = a
    · subst hk
      simp at h
      simp [h]
    · have hk' : (k == a) = false := beq_false_of_ne hk
      rw [hk'] at h
      exact List.mem_cons_of_mem _ (ih h)

lemma lookup_cons_self {α : Type} (l : List (ℕ × α)) (k : ℕ) (v : α) :
    ((k, v) :: l).lookup k = some v := by
  simp [List.lookup]

lemma lookup_cons_ne {α : Type} (l : List (ℕ × α)) {k k' : ℕ} (v : α)
    (h : k' ≠ k) : ((k, v) :: l).lookup k' = l.lookup k' := by
  rw [List.lookup, beq_false_of_ne h]

/-! Lemmas about wrapping arithmetic. -/

lemma W_pos : 0 < W := by
  unfold W
  positivity

lemma subWrap_of_le {a b : ℕ} (ha : a < W) (h : b ≤ a) : subWrap a b = a - b := by
  unfold subWrap
  rw [Nat.mod_eq_of_lt (lt_of_le_of_lt h ha)]
  have h1 : a + W - b = W + (a - b) := by omega
  rw [h1, Nat.add_mod_left, Nat.mod_eq_of_lt (by omega)]

lemma subWrap_of_gt {a b : ℕ} (hb : b < W) (h : a < b) : subWrap a b = a + W - b := by
  unfold subWrap
  rw [Nat.mod_eq_of_lt hb, Nat.mod_eq_of_lt (by omega)]

/-- The wrapped linear-vesting quotient never exceeds the total amount,
even when the 256-bit product has wrapped, because a wrap can only
happen when the product already exceeds `totalAmount * duration`. -/
lemma linear_vested_le_total (total e dur : ℕ) (hd : 0 < dur) (he : e ≤ dur) :
    total * e % W / dur ≤ total := by
  calc total * e % W / dur ≤ total * e / dur :=
        Nat.div_le_div_right (Nat.mod_le _ _)
    _ ≤ total * dur / dur := Nat.div_le_div_right (Nat.mul_le_mul_left _ he)
    _ = total := Nat.mul_div_cancel total hd

/-! The state invariant maintained by every reachable ledger state. -/

/-- Structural well-formedness of a stored schedule. -/
def GoodSchedule (s : VestingSchedule) : Prop :=
  s.beneficiary ≠ 0 ∧ s.released ≤ s.totalAmount ∧ s.totalAmount < W ∧ 0 < s.duration

/-- Every binding ever written into the schedule store is well-formed
(shadowed bindings included). -/
def Inv (st : LedgerState) : Prop := ∀ p ∈ st.schedules, GoodSchedule p.2

/-- Every stored id was generated from a creation counter below the
current counter, so the next generated id is fresh. -/
def Fresh (st : LedgerState) : Prop :=
  ∀ p ∈ st.schedules,
    ∃ b tok a s ts c, c < st.count ∧ p.1 = genId b tok a s ts c

lemma genId_count_eq {b tok a s ts c b' tok' a' s' ts' c' : ℕ}
    (h : genId b tok a s ts c = genId b' tok' a' s' ts' c') : c = c' := by
  unfold genId at h
  simp only [Nat.pair_eq_pair] at h
  exact h.2.2.2.2.2

lemma fresh_lookup_none {st : LedgerState} (hf : Fresh st) (b tok a s ts : ℕ) :
    st.schedules.lookup (genId b tok a s ts st.count) = none := by
  cases h : st.schedules.lookup (genId b tok a s ts st.count) with
  | none => rfl
  | some v =>
    exfalso
    obtain ⟨b', tok', a', s', ts', c', hc, hid⟩ := hf _ (lookup_mem h)
    exact absurd (genId_count_eq hid.symm) (by omega)

lemma lookupSched_good {st : LedgerState} (hI : Inv st) {vestingId : ℕ}
    (hb : (lookupSched st vestingId).beneficiary ≠ 0) :
    GoodSchedule (lookupSched st vestingId) := by
  unfold lookupSched at hb ⊢
  cases h : st.schedules.lookup vestingId with
  | none => rw [h] at hb; simp [zeroSchedule] at hb
  | some v => exact hI _ (lookup_mem h)

lemma lookupSched_mem {st : LedgerState} {vestingId : ℕ}
    (hb : (lookupSched st vestingId).beneficiary ≠ 0) :
    (vestingId, lookupSched st vestingId) ∈ st.schedules := by
  unfold lookupSched at hb ⊢
  cases h : st.schedules.lookup vestingId with
  | none => rw [h] at hb; simp [zeroSchedule] at hb
  | some v => exact lookup_mem h

/-- Whenever `_computeReleasableAmount` returns `r` on a well-formed
schedule and the checked `released += r` does not revert, the new
`released` stays within `totalAmount`: the wrapped subtraction can only
escape `totalAmount` by making the checked addition overflow. -/
lemma releasable_bound {s : VestingSchedule} (hg : GoodSchedule s) {t r : ℕ}
    (hc : computeReleasableAmountOpt s t = some r) (hW : s.released + r < W) :
    s.released + r ≤ s.totalAmount := by
  obtain ⟨hb, hrel, htot, hdur⟩ := hg
  unfold computeReleasableAmountOpt at hc
  split_ifs at hc with h1 h2 h3 h4
  · cases hc
    omega
  · -- fully-vested branch: r = subWrap totalAmount released
    cases hc
    rcases le_or_lt s.released s.totalAmount with hle | hgt
    · rw [subWrap_of_le htot hle]
      omega
    · omega
  · -- linear branch: r = subWrap vested released with vested ≤ totalAmount
    have he : t - s.startTime ≤ s.duration := by omega
    have hv := linear_vested_le_total s.totalAmount (t - s.startTime) s.duration hdur he
    revert hc hW
    generalize s.totalAmount * (t - s.startTime) % W / s.duration = v at hv
    intro hW hc
    cases hc
    rcases le_or_lt s.released v with hle | hgt
    · rw [subWrap_of_le (lt_of_le_of_lt hv htot) hle]
      omega
    · rw [subWrap_of_gt (by omega) hgt] at hW ⊢
      omega

/-- Pointwise monotonicity of `released` between two states. -/
def relLe (st st' : LedgerState) : Prop :=
  ∀ vestingId, (lookupSched st vestingId).released ≤ (lookupSched st' vestingId).released

lemma relLe_refl (st : LedgerState) : relLe st st := fun _ => le_rfl

lemma relLe_trans {s1 s2 s3 : LedgerState} (h1 : relLe s1 s2) (h2 : relLe s2 s3) :
    relLe s1 s3 := fun vestingId => le_trans (h1 vestingId) (h2 vestingId)

lemma lookupSched_benef_zero {st : LedgerState} (hI : Inv st) {vestingId : ℕ}
    (h : (lookupSched st vestingId).beneficiary = 0) :
    lookupSched st vestingId = zeroSchedule := by
  unfold lookupSched at h ⊢
  cases hl : st.schedules.lookup vestingId with
  | none => rfl
  | some v =>
    rw [hl] at h
    exact absurd h (hI _ (lookup_mem hl)).1

/-- The common shape of every schedule-store update: a single new binding
is prepended.  If the new binding is well-formed, carries a fresh-enough
id, and does not decrease `released` relative to the previous view of
that id, all three invariants carry over. -/
lemma preserve_cons {st : LedgerState} (st' : LedgerState) (hI : Inv st) (hF : Fresh st)
    {vestingId : ℕ} {snew : VestingSchedule}
    (hsch : st'.schedules = (vestingId, snew) :: st.schedules)
    (hcnt : st.count ≤ st'.count)
    (hgood : GoodSchedule snew)
    (hid : ∃ b tok a s ts c, c < st'.count ∧ vestingId = genId b tok a s ts c)
    (hrel : (lookupSched st vestingId).released ≤ snew.released) :
    Inv st' ∧ Fresh st' ∧ relLe st st' ∧ st.count ≤ st'.count := by
  refine ⟨?_, ?_, ?_, hcnt⟩
  · intro p hp
    rw [hsch] at hp
    rcases List.mem_cons.mp hp with h | h
    · rw [h]
      exact hgood
    · exact hI p h
  · intro p hp
    rw [hsch] at hp
    rcases List.mem_cons.mp hp with h | h
    · rw [h]
      exact hid
    · obtain ⟨b, tok, a, s, ts, c, hc, hpid⟩ := hF p h
      exact ⟨b, tok, a, s, ts, c, lt_of_lt_of_le hc hcnt, hpid⟩
  · intro i
    by_cases hi : i = vestingId
    · subst hi
      have : lookupSched st' i = snew := by
        unfold lookupSched
        rw [hsch, lookup_cons_self]
        rfl
      rw [this]
      exact hrel
    · have : lookupSched st' i = lookupSched st i := by
        unfold lookupSched
        rw [hsch, lookup_cons_ne _ _ hi]
      rw [this]

lemma create_preserve {st : LedgerState} (hI : Inv st) (hF : Fresh st)
    {c b tok a s cl d : ℕ} {rv : Bool} {now : ℕ} {res : LedgerState × ℕ}
    (h : createVestingSchedule st c b tok a s cl d rv now = some res) :
    Inv res.1 ∧ Fresh res.1 ∧ relLe st res.1 ∧ st.count ≤ res.1.count := by
  rw [createVestingSchedule] at h
  split_ifs at h with hok
  obtain ⟨h1, h2, h3, h4, h5, h6, h7, h8, h9, h10, h11⟩ := hok
  injection h with h
  subst h
  refine preserve_cons _ hI hF rfl (Nat.le_succ _)
    ⟨h3, Nat.zero_le _, h9, Nat.pos_of_ne_zero h6⟩
    ⟨b, tok, a, s, now, st.count, Nat.lt_succ_self _, rfl⟩ ?_
  rw [lookupSched_benef_zero hI h10]
  exact Nat.zero_le _

lemma batchLoop_preserve (token startTime cliff duration : ℕ) (rv : Bool) (now : ℕ)
    (hd : 0 < duration) :
    ∀ (pairs : List (ℕ × ℕ)) (st st' : LedgerState), Inv st → Fresh st →
    (∀ q ∈ pairs, q.2 < W) →
    batchLoop st token pairs startTime cliff duration rv now = some st' →
    Inv st' ∧ Fresh st' ∧ relLe st st' ∧ st.count ≤ st'.count := by
  intro pairs
  induction pairs with
  | nil =>
    intro st st' hI hF hWb h
    rw [batchLoop] at h
    injection h with h
    subst h
    exact ⟨hI, hF, relLe_refl st, le_rfl⟩
  | cons q rest ih =>
    obtain ⟨b, a⟩ := q
    intro st st' hI hF hWb h
    rw [batchLoop] at h
    split_ifs at h with hok
    obtain ⟨hb, ha⟩ := hok
    have hmid := preserve_cons ({ st with
        schedules := (genId b token a startTime now st.count,
          ⟨b, token, a, 0, startTime, cliff, duration, rv, false⟩) :: st.schedules
        benefIndex := pushIndex st.benefIndex b (genId b token a startTime now st.count)
        count := st.count + 1 } : LedgerState) hI hF rfl (Nat.le_succ _)
      ⟨hb, Nat.zero_le _, hWb (b, a) (List.mem_cons_self _ _), hd⟩
      ⟨b, token, a, startTime, now, st.count, Nat.lt_succ_self _, rfl⟩ ?_
    · obtain ⟨hI1, hF1, hR1, hC1⟩ := hmid
      obtain ⟨hI2, hF2, hR2, hC2⟩ := ih _ st' hI1 hF1
        (fun p hp => hWb p (List.mem_cons_of_mem _ hp)) h
      exact ⟨hI2, hF2, relLe_trans hR1 hR2, le_trans hC1 hC2⟩
    · rw [lookupSched_benef_zero hI ?_]
      · exact Nat.zero_le _
      · unfold lookupSched
        rw [fresh_lookup_none hF b token a startTime now]
        rfl

lemma batch_preserve {st st' : LedgerState} (hI : Inv st) (hF : Fresh st)
    {c tok : ℕ} {bs amts : List ℕ} {s cl d : ℕ} {rv : Bool} {now : ℕ}
    (h : batchCreateVestingSchedules st c tok bs amts s cl d rv now = some st') :
    Inv st' ∧ Fresh st' ∧ relLe st st' ∧ st.count ≤ st'.count := by
  rw [batchCreateVestingSchedules] at h
  split_ifs at h with hok
  obtain ⟨h1, h2, h3, h4, h5, h6, h7, h8, h9, h10⟩ := hok
  have hWb : ∀ q ∈ bs.zip amts, q.2 < W := by
    intro q hq
    have hmem : q.2 ∈ amts := (List.of_mem_zip hq).2
    exact lt_of_le_of_lt (List.single_le_sum (fun x _ => Nat.zero_le x) _ hmem) h9
  exact batchLoop_preserve tok s cl d rv now (Nat.pos_of_ne_zero h6) (bs.zip amts)
    { st with
      custody := setAmt st.custody tok (getAmt st.custody tok + amts.sum)
      lockedTotal := setAmt st.lockedTotal tok (getAmt st.lockedTotal tok + amts.sum) }
    st' hI hF hWb h

lemma release_preserve {st : LedgerState} (hI : Inv st) (hF : Fresh st)
    {vestingId caller now : ℕ} {res : LedgerState × Transfer}
    (h : release st vestingId caller now = some res) :
    Inv res.1 ∧ Fresh res.1 ∧ relLe st res.1 ∧ st.count ≤ res.1.count := by
  rw [release] at h
  cases hc : computeReleasableAmountOpt (lookupSched st vestingId) now with
  | none => rw [hc] at h; exact Option.noConfusion h
  | some r =>
    rw [hc, Option.some_bind] at h
    split_ifs at h with hok
    obtain ⟨h1, h2, h3, h4, h5, h6, h7, h8⟩ := hok
    injection h with h
    subst h
    obtain ⟨hgb, hgr, hgt, hgd⟩ := lookupSched_good hI h4
    obtain ⟨b', tok', a', s', ts', c', hcn, hid⟩ := hF _ (lookupSched_mem h4)
    refine preserve_cons _ hI hF rfl le_rfl
      ⟨hgb, releasable_bound (lookupSched_good hI h4) hc h6, hgt, hgd⟩
      ⟨b', tok', a', s', ts', c', hcn, hid⟩ (Nat.le_add_right _ _)

lemma revoke_preserve {st st' : LedgerState} (hI : Inv st) (hF : Fresh st)
    {vestingId caller now : ℕ}
    (h : revoke st vestingId caller now = some st') :
    Inv st' ∧ Fresh st' ∧ relLe st st' ∧ st.count ≤ st'.count := by
  rw [revoke] at h
  cases hc : computeReleasableAmountOpt (lookupSched st vestingId) now with
  | none => rw [hc] at h; exact Option.noConfusion h
  | some r =>
    rw [hc, Option.some_bind] at h
    split_ifs at h with hok
    obtain ⟨h1, h2, h3, h4, h5, h6, h7⟩ := hok
    injection h with h
    subst h
    obtain ⟨hgb, hgr, hgt, hgd⟩ := lookupSched_good hI h4
    obtain ⟨b', tok', a', s', ts', c', hcn, hid⟩ := hF _ (lookupSched_mem h4)
    refine preserve_cons _ hI hF rfl le_rfl ⟨hgb, h6, hgt, hgd⟩
      ⟨b', tok', a', s', ts', c', hcn, hid⟩ ?_
    unfold revokeReleased1
    split_ifs with hr
    · exact Nat.le_add_right _ _
    · exact le_rfl

lemma changeBeneficiary_preserve {st st' : LedgerState} (hI : Inv st) (hF : Fresh st)
    {vestingId newBeneficiary caller : ℕ}
    (h : changeBeneficiary st vestingId newBeneficiary caller = some st') :
    Inv st' ∧ Fresh st' ∧ relLe st st' ∧ st.count ≤ st'.count := by
  rw [changeBeneficiary] at h
  split_ifs at h with hok
  obtain ⟨h1, h2, h3, h4, h5⟩ := hok
  injection h with h
  subst h
  obtain ⟨hgb, hgr, hgt, hgd⟩ := lookupSched_good hI h4
  obtain ⟨b', tok', a', s', ts', c', hcn, hid⟩ := hF _ (lookupSched_mem h4)
  exact preserve_cons _ hI hF rfl le_rfl ⟨h2, hgr, hgt, hgd⟩
    ⟨b', tok', a', s', ts', c', hcn, hid⟩ le_rfl

lemma applyOp_preserve {st st' : LedgerState} {op : Op} {now : ℕ}
    (hI : Inv st) (hF : Fresh st) (h : applyOp st op now = some st') :
    Inv st' ∧ Fresh st' ∧ relLe st st' ∧ st.count ≤ st'.count := by
  cases op with
  | create c b tok a s cl d rv =>
    rw [applyOp] at h
    cases hc : createVestingSchedule st c b tok a s cl d rv now with
    | none => rw [hc] at h; exact Option.noConfusion h
    | some res =>
      rw [hc] at h
      injection h with h
      subst h
      exact create_preserve hI hF hc
  | batchCreate c tok bs amts s cl d rv =>
    rw [applyOp] at h
    exact batch_preserve hI hF h
  | release vestingId c =>
    rw [applyOp] at h
    cases hc : release st vestingId c now with
    | none => rw [hc] at h; exact Option.noConfusion h
    | some res =>
      rw [hc] at h
      injection h with h
      subst h
      exact release_preserve hI hF hc
  | revoke vestingId c =>
    rw [applyOp] at h
    exact revoke_preserve hI hF h
  | changeBeneficiary vestingId nb c =>
    rw [applyOp] at h
    exact changeBeneficiary_preserve hI hF h
  | pause c =>
    rw [applyOp, pauseOp] at h
    split_ifs at h
    injection h with h
    subst h
    exact ⟨hI, hF, fun _ => le_rfl, le_rfl⟩
  | unpause c =>
    rw [applyOp, unpauseOp] at h
    split_ifs at h
    injection h with h
    subst h
    exact ⟨hI, hF, fun _ => le_rfl, le_rfl⟩

lemma reachable_inv {st : LedgerState} (h : Reachable st) : Inv st ∧ Fresh st := by
  induction h with
  | init owner =>
    constructor
    · intro p hp
      simp [initState] at hp
    · intro p hp
      simp [initState] at hp
  | step op now hr hstep ih =>
    obtain ⟨hI, hF, _, _⟩ := applyOp_preserve ih.1 ih.2 hstep
    exact ⟨hI, hF⟩

lemma batchLoop_none (token startTime cliff duration : ℕ) (rv : Bool) (now : ℕ) :
    ∀ (pairs : List (ℕ × ℕ)) (st : LedgerState),
      (∃ q ∈ pairs, q.1 = 0 ∨ q.2 = 0) →
      batchLoop st token pairs startTime cliff duration rv now = none := by
  intro pairs
  induction pairs with
  | nil =>
    intro st h
    simp at h
  | cons q rest ih =>
    intro st h
    obtain ⟨b, a⟩ := q
    rw [batchLoop]
    split_ifs with hok
    · apply ih
      obtain ⟨q', hq', hbad⟩ := h
      rcases List.mem_cons.mp hq' with heq | hm
      · subst heq
        rcases hbad with hb | ha
        · exact absurd hb hok.1
        · exact absurd ha hok.2
      · exact ⟨q', hm, hbad⟩
    · rfl

/-! The claims. -/

/-- Claim C1 (code bug).  The failing input: create a revocable schedule
of 1000 tokens of asset 2 at time 100 with no cliff and duration 1000,
then revoke it at time 500.  The tracked per-asset locked total ends at
400, while custody holds 0 of the asset and the sum of
`totalAmount - released` over non-revoked schedules is 0: `revoke`
decrements `totalLockedTokens` by the unvested refund (600) only, never
by the vested payout (400), so the tracked total both differs from the
per-asset sum and exceeds the custody balance, contradicting the
locked-total invariant (and permanently disabling `emergencyWithdraw`,
whose `balance >= locked` requirement can no longer hold). -/
theorem lockedTotal_exceeds_custody_after_revoke :
    (((applyOp (initState 9) (Op.create 9 1 2 1000 100 0 1000 true) 100).bind
      (fun st => applyOp st (Op.revoke (genId 1 2 1000 100 100 0) 9) 500)).map
      (fun st => (getAmt st.lockedTotal 2, getAmt st.custody 2, sumLocked st 2)))
      = some (400, 0, 0) := by
  decide

/-- Claim C2: in every reachable ledger state every schedule satisfies
`released ≤ totalAmount` (`released` is a natural, so `0 ≤ released` is
inherent), and no successful operation ever decreases any schedule's
`released`. -/
theorem released_bounded_and_monotone :
    ∀ st : LedgerState, Reachable st →
      (∀ vestingId,
        (lookupSched st vestingId).released ≤ (lookupSched st vestingId).totalAmount)
      ∧ (∀ op now st', applyOp st op now = some st' →
          ∀ vestingId,
            (lookupSched st vestingId).released ≤ (lookupSched st' vestingId).released) := by
  intro st hr
  obtain ⟨hI, hF⟩ := reachable_inv hr
  constructor
  · intro vestingId
    by_cases hb : (lookupSched st vestingId).beneficiary = 0
    · rw [lookupSched_benef_zero hI hb]
      exact le_rfl
    · exact (lookupSched_good hI hb).2.1
  · intro op now st' h vestingId
    exact (applyOp_preserve hI hF h).2.2.1 vestingId

theorem released_bounded_and_monotone_witness :
    Reachable (initState 9)
    ∧ (lookupSched (initState 9) 0).released ≤ (lookupSched (initState 9) 0).totalAmount :=
  ⟨Reachable.init 9, (released_bounded_and_monotone (initState 9) (Reachable.init 9)).1 0⟩

/-- Claim C3 counterexample: on the batch `[(1, 5), (3, 0)]` (second
entry has amount 0), the transaction's trace shows the aggregate
`safeTransferFrom` of the total (5) and even the creation of entry 0
executing before entry 1's validation reverts — the failing per-entry
validation does not occur before the aggregate custody transfer. -/
theorem batch_validation_after_transfer_counterexample :
    batchCreateEvents (initState 9) 9 2 [1, 3] [5, 0] 100 0 50 10
      = [BatchEvent.transferIn 2 5, BatchEvent.lockedUpdate 2 5,
        BatchEvent.created 1 5, BatchEvent.entryRevert 1] := by
  decide

/-- Claim C3 amended: the batch is atomic in effect — whenever any entry
has a zero beneficiary or a zero amount, the whole transaction reverts
(`none`), so no schedule records, index entries, locked-total change or
token movement are committed — but the failing per-entry validation runs
after the aggregate transfer inside the reverted transaction, not
before it. -/
theorem batch_atomic_on_bad_entry :
    ∀ (st : LedgerState) (caller token : ℕ) (bs amts : List ℕ)
      (startTime cliff duration : ℕ) (rv : Bool) (now : ℕ),
      (∃ q ∈ bs.zip amts, q.1 = 0 ∨ q.2 = 0) →
      batchCreateVestingSchedules st caller token bs amts startTime cliff duration rv now
        = none := by
  intro st caller token bs amts startTime cliff duration rv now hbad
  rw [batchCreateVestingSchedules]
  split_ifs with hok
  · exact batchLoop_none token startTime cliff duration rv now _ _ hbad
  · rfl

theorem batch_atomic_on_bad_entry_witness :
    (∃ q ∈ ([1, 3] : List ℕ).zip ([5, 0] : List ℕ), q.1 = 0 ∨ q.2 = 0)
    ∧ batchCreateVestingSchedules (initState 9) 9 2 [1, 3] [5, 0] 100 0 50 true 10 = none :=
  ⟨⟨(3, 0), by decide, Or.inr rfl⟩,
    batch_atomic_on_bad_entry (initState 9) 9 2 [1, 3] [5, 0] 100 0 50 true 10
      ⟨(3, 0), by decide, Or.inr rfl⟩⟩

/-- Claim C4 counterexample: on a drifted schedule whose `released` (10)
exceeds the vested amount (5, fully vested at `now = 20`), the optimized
contract's unchecked subtraction wraps modulo `2^256` and returns
`2^256 - 5`, not 0. -/
theorem releasable_wraps_counterexample :
    vestedTS wrapSchedule 20 < wrapSchedule.released
    ∧ computeReleasableAmountOpt wrapSchedule 20 = some (2 ^ 256 - 5)
    ∧ (2 ^ 256 - 5 : ℕ) ≠ 0 := by
  decide

/-- Claim C4 amended: only the query layer floors, and only off the
fully-vested branch: for every schedule and every `now` strictly before
`startTime + duration`, the query-layer claimable equals
`max 0 (vested - released)` (so it is 0, not a wrapped value, whenever
`released` exceeds the vested amount); the contract's unchecked
subtraction instead wraps modulo `2^256` (counterexample above), and the
fully-vested branch of the query layer returns `totalAmount - released`
unfloored. -/
theorem claimableTS_floors_before_end :
    ∀ (s : VestingSchedule) (t : ℕ), t < s.startTime + s.duration →
      claimableTS s t = max 0 ((vestedTS s t : ℤ) - (s.released : ℤ)) := by
  intro s t h
  unfold claimableTS vestedTS
  split_ifs with h1 h2
  · rw [Nat.cast_zero, max_eq_left (by omega)]
  · exact absurd h2 (by omega)
  · have hcast : ((s.totalAmount * (t - s.startTime) / s.duration : ℕ) : ℤ)
        = (s.totalAmount : ℤ) * ((t - s.startTime : ℕ) : ℤ) / (s.duration : ℤ) := by
      rw [Int.natCast_div, Nat.cast_mul]
    rw [← hcast]
    simp only [max_def]
    split_ifs <;> omega

theorem claimableTS_floors_before_end_witness :
    5 < wrapSchedule.startTime + wrapSchedule.duration
    ∧ claimableTS wrapSchedule 5
      = max 0 ((vestedTS wrapSchedule 5 : ℤ) - (wrapSchedule.released : ℤ)) :=
  ⟨by decide, claimableTS_floors_before_end wrapSchedule 5 (by decide)⟩

/-- Claim C5 counterexample: the query-layer `calculateVestingRelease`
does not consult `revoked`: on a revoked, fully-vested schedule with
nothing released it reports claimable 100, not 0. -/
theorem revoked_query_claimable_counterexample :
    revokedSchedule.revoked = true
    ∧ claimableTS revokedSchedule 20 = 100
    ∧ claimableTS revokedSchedule 20 ≠ 0 := by
  decide

/-- Claim C5 amended: at the contract level the property holds — the
public `computeReleasableAmount` (and hence the `releasable` field of
`getVestingInfo`) returns 0 for every revoked schedule at every
timestamp — but the query-layer `calculateVestingRelease` ignores
`revoked` and can report a positive claimable (counterexample above). -/
theorem revoked_releasable_zero_contract :
    ∀ (s : VestingSchedule) (t : ℕ), s.revoked = true →
      computeReleasableAmountPub s t = some 0
      ∧ ∀ (st : LedgerState) (vestingId : ℕ), lookupSched st vestingId = s →
          getVestingInfoReleasable st vestingId t = some 0 := by
  intro s t h
  constructor
  · unfold computeReleasableAmountPub
    rw [if_pos h]
  · intro st vestingId hs
    unfold getVestingInfoReleasable computeReleasableAmountPub
    rw [hs, if_pos h]

theorem revoked_releasable_zero_contract_witness :
    revokedSchedule.revoked = true
    ∧ computeReleasableAmountPub revokedSchedule 20 = some 0 :=
  ⟨by decide, (revoked_releasable_zero_contract revokedSchedule 20 (by decide)).1⟩

/-- Claim C6 counterexample: the original `TokenVesting.release` takes a
caller-supplied token argument and transfers that asset: on a schedule
whose stored token is 7, calling release with token argument 9 succeeds
and the custody transfer moves token 9. -/
theorem release_token_substitution_counterexample :
    (releaseLegacy [(1, legacySchedule)] 1 9 3 20).map (fun p => p.2.token) = some 9
    ∧ legacySchedule.token = 7 := by
  decide

/-- Claim C6 amended: in the optimized variant the property holds —
every successful `release` transfer moves the schedule's stored token to
the schedule's stored beneficiary, with no caller-supplied asset
argument — while the original variant transfers a caller-supplied token
(counterexample above). -/
theorem release_transfers_schedule_token :
    ∀ (st : LedgerState) (vestingId caller now : ℕ) (tr : Transfer),
      (release st vestingId caller now).map Prod.snd = some tr →
      tr.token = (lookupSched st vestingId).token
      ∧ tr.dest = (lookupSched st vestingId).beneficiary := by
  intro st vestingId caller now tr h
  rw [release] at h
  cases hc : computeReleasableAmountOpt (lookupSched st vestingId) now with
  | none =>
    rw [hc] at h
    exact Option.noConfusion h
  | some r =>
    rw [hc, Option.some_bind] at h
    split_ifs at h
    · injection h with h
      rw [← h]
      exact ⟨rfl, rfl⟩
    · exact Option.noConfusion h

theorem release_transfers_schedule_token_witness :
    (Transfer.mk 7 3 10).token = (lookupSched demoState 1).token
    ∧ (Transfer.mk 7 3 10).dest = (lookupSched demoState 1).beneficiary :=
  release_transfers_schedule_token demoState 1 3 20 ⟨7, 3, 10⟩ (by decide)

/-- Claim C7 counterexample: the optimized contract computes the product
`totalAmount * timeElapsed` in the 256-bit word inside an `unchecked`
block: with `totalAmount = 2^255`, no cliff, duration 8, at `now = 4`
the product `2^257` wraps to 0 and the contract returns releasable 0,
while the exact widened computation gives `2^254`. -/
theorem widened_product_counterexample :
    computeReleasableAmountOpt overflowSchedule 4 = some 0
    ∧ overflowSchedule.totalAmount * (4 - overflowSchedule.startTime)
        / overflowSchedule.duration = 2 ^ 254 := by
  decide

/-- Claim C7 amended: the query layer (BigInt) always computes the exact
floor `totalAmount * (now - startTime) / duration`; the optimized
contract computes it in the 256-bit word inside `unchecked`, so it
agrees with the exact value only while the product stays below `2^256`
(and wraps beyond it, per the counterexample); the original contract's
checked multiplication aborts instead of widening. -/
theorem vested_exact_in_range :
    ∀ (s : VestingSchedule) (t : ℕ), 0 < s.duration →
      s.startTime + s.cliff ≤ t → t < s.startTime + s.duration →
      s.startTime + s.duration < W →
      s.totalAmount * (t - s.startTime) < W →
      s.released ≤ s.totalAmount * (t - s.startTime) / s.duration →
      vestedTS s t = s.totalAmount * (t - s.startTime) / s.duration
      ∧ computeReleasableAmountOpt s t
        = some (s.totalAmount * (t - s.startTime) / s.duration - s.released) := by
  intro s t hd h1 h2 h3 h4 h5
  constructor
  · unfold vestedTS
    rw [if_neg (by omega), if_neg (by omega)]
  · unfold computeReleasableAmountOpt
    rw [if_neg (by omega), if_neg (by omega), if_neg (by omega), if_neg (by omega),
      Nat.mod_eq_of_lt h4,
      subWrap_of_le (lt_of_le_of_lt (Nat.div_le_self _ _) h4) h5]

theorem vested_exact_in_range_witness :
    vestedTS demoSchedule 400
      = demoSchedule.totalAmount * (400 - demoSchedule.startTime) / demoSchedule.duration
    ∧ computeReleasableAmountOpt demoSchedule 400
      = some (demoSchedule.totalAmount * (400 - demoSchedule.startTime)
          / demoSchedule.duration - demoSchedule.released) :=
  vested_exact_in_range demoSchedule 400 (by decide) (by decide) (by decide) (by decide)
    (by decide) (by decide)

/-- Claim C8 counterexample: the optimized contract's vested amount is
not monotone in `now` for every valid schedule (`duration > 0`,
`cliff ≤ duration`): on `overflowSchedule` (nothing released, so the
returned releasable equals the computed vested amount) the unchecked
product wraps between `now = 3` and `now = 4` and the result drops from
`2^252` to 0. -/
theorem vested_monotone_contract_counterexample :
    0 < overflowSchedule.duration ∧ overflowSchedule.cliff ≤ overflowSchedule.duration
    ∧ overflowSchedule.released = 0
    ∧ computeReleasableAmountOpt overflowSchedule 3 = some (2 ^ 252)
    ∧ computeReleasableAmountOpt overflowSchedule 4 = some 0
    ∧ (0 : ℕ) < 2 ^ 252 := by
  decide

/-- Claim C8 amended: the query-layer vested amount is monotonically
non-decreasing in the current time for every fixed schedule with
positive duration and cliff at most the duration, across the cliff and
full-vesting boundaries included; the optimized contract's unchecked
computation agrees except when `totalAmount * timeElapsed` wraps the
256-bit word, where it can decrease (counterexample above). -/
theorem vestedAmount_monotone :
    ∀ (s : VestingSchedule) (t1 t2 : ℕ), t1 ≤ t2 → 0 < s.duration →
      s.cliff ≤ s.duration → vestedTS s t1 ≤ vestedTS s t2 := by
  intro s t1 t2 h12 hd hcd
  unfold vestedTS
  split_ifs with a1 a2 a3 a4 a5 a6 a7
  any_goals exact Nat.zero_le _
  any_goals exact le_rfl
  any_goals (exfalso; omega)
  · exact le_trans
      (Nat.div_le_div_right (Nat.mul_le_mul_left _ (by omega)))
      (le_of_eq (Nat.mul_div_cancel _ hd))
  · exact Nat.div_le_div_right (Nat.mul_le_mul_left _ (by omega))

theorem vestedAmount_monotone_witness :
    (3 : ℕ) ≤ 700 ∧ 0 < demoSchedule.duration ∧ demoSchedule.cliff ≤ demoSchedule.duration
    ∧ vestedTS demoSchedule 3 ≤ vestedTS demoSchedule 700 :=
  ⟨by decide, by decide, by decide,
    vestedAmount_monotone demoSchedule 3 700 (by decide) (by decide) (by decide)⟩

lemma revoke_pause_blind (st : LedgerState) (p : Bool) (vestingId c now : ℕ) :
    revoke { st with paused := p } vestingId c now
      = (revoke st vestingId c now).map (fun s1 => { s1 with paused := p }) := by
  obtain ⟨ow, pa, sch, bi, lt, cu, cnt⟩ := st
  simp only [revoke, lookupSched]
  cases computeReleasableAmountOpt ((sch.lookup vestingId).getD zeroSchedule) now with
  | none => rfl
  | some r =>
    simp only [Option.some_bind]
    split_ifs with h
    · rfl
    · rfl

lemma changeBeneficiary_pause_blind (st : LedgerState) (p : Bool) (vestingId nb c : ℕ) :
    changeBeneficiary { st with paused := p } vestingId nb c
      = (changeBeneficiary st vestingId nb c).map (fun s1 => { s1 with paused := p }) := by
  obtain ⟨ow, pa, sch, bi, lt, cu, cnt⟩ := st
  simp only [changeBeneficiary, lookupSched]
  split_ifs with h
  · rfl
  · rfl

/-- Claim C9: while paused, `createVestingSchedule`,
`batchCreateVestingSchedules` and `release` all revert (so no paused
state admits a successful create, batch-create or release, and a revert
changes no state); `revoke` and `changeBeneficiary` never read the pause
flag — on any state they behave exactly as they do with the flag
cleared, only carrying the flag through — and the queries and `unpause`
are likewise available while paused. -/
theorem pause_blocks_payouts_only :
    ∀ st : LedgerState,
      (st.paused = true →
        (∀ c b tok a s cl d (rv : Bool) now,
          createVestingSchedule st c b tok a s cl d rv now = none)
        ∧ (∀ c tok bs amts s cl d (rv : Bool) now,
          batchCreateVestingSchedules st c tok bs amts s cl d rv now = none)
        ∧ (∀ vestingId c now, release st vestingId c now = none))
      ∧ (∀ (p : Bool) vestingId c now,
          revoke { st with paused := p } vestingId c now
            = (revoke st vestingId c now).map (fun s1 => { s1 with paused := p }))
      ∧ (∀ (p : Bool) vestingId nb c,
          changeBeneficiary { st with paused := p } vestingId nb c
            = (changeBeneficiary st vestingId nb c).map (fun s1 => { s1 with paused := p }))
      ∧ (∀ (p : Bool) vestingId,
          getVestingSchedule { st with paused := p } vestingId
            = getVestingSchedule st vestingId)
      ∧ (∀ (p : Bool) b,
          getBeneficiarySchedules { st with paused := p } b = getBeneficiarySchedules st b)
      ∧ (∀ (p : Bool) vestingId now,
          getVestingInfoReleasable { st with paused := p } vestingId now
            = getVestingInfoReleasable st vestingId now)
      ∧ (st.paused = true → unpauseOp st st.owner = some { st with paused := false }) := by
  intro st
  refine ⟨fun hp => ⟨?_, ?_, ?_⟩, revoke_pause_blind st, changeBeneficiary_pause_blind st,
    fun p vestingId => rfl, fun p b => rfl, fun p vestingId now => rfl, fun hp => ?_⟩
  · intro c b tok a s cl d rv now
    rw [createVestingSchedule,
      if_neg (by rintro ⟨-, h2, -⟩; rw [hp] at h2; exact Bool.noConfusion h2)]
  · intro c tok bs amts s cl d rv now
    rw [batchCreateVestingSchedules,
      if_neg (by rintro ⟨-, h2, -⟩; rw [hp] at h2; exact Bool.noConfusion h2)]
  · intro vestingId c now
    cases hc : computeReleasableAmountOpt (lookupSched st vestingId) now with
    | none => rw [release, hc]; rfl
    | some r =>
      rw [release, hc, Option.some_bind,
        if_neg (by rintro ⟨h1, -⟩; rw [hp] at h1; exact Bool.noConfusion h1)]
  · rw [unpauseOp, if_pos ⟨rfl, hp⟩]

theorem pause_blocks_payouts_only_witness :
    pausedState.paused = true
    ∧ createVestingSchedule pausedState 9 1 2 5 100 0 10 true 50 = none
    ∧ release pausedState 1 3 20 = none
    ∧ unpauseOp pausedState pausedState.owner = some { pausedState with paused := false } :=
  ⟨rfl,
    ((pause_blocks_payouts_only pausedState).1 rfl).1 9 1 2 5 100 0 10 true 50,
    ((pause_blocks_payouts_only pausedState).1 rfl).2.2 1 3 20,
    (pause_blocks_payouts_only pausedState).2.2.2.2.2.2 rfl⟩

/-- Claim C10 counterexample: reading a nonexistent id does not fail
with a NotFound error — the getter returns the all-zero record. -/
theorem getSchedule_zero_record_counterexample :
    (initState 9).schedules.lookup 42 = none
    ∧ getVestingSchedule (initState 9) 42 = zeroSchedule := by
  decide

/-- Claim C10 amended: `getVestingSchedule` returns the full stored
record whenever the id exists; for a nonexistent id it does not fail but
returns the all-zero record (`beneficiary = 0` being the in-band
nonexistence sentinel the mutating operations test for). -/
theorem getSchedule_stored_or_zero :
    ∀ (st : LedgerState) (vestingId : ℕ),
      (∀ s, st.schedules.lookup vestingId = some s →
        getVestingSchedule st vestingId = s)
      ∧ (st.schedules.lookup vestingId = none →
        getVestingSchedule st vestingId = zeroSchedule) := by
  intro st vestingId
  constructor
  · intro s h
    unfold getVestingSchedule lookupSched
    rw [h]
    rfl
  · intro h
    unfold getVestingSchedule lookupSched
    rw [h]
    rfl

theorem getSchedule_stored_or_zero_witness :
    getVestingSchedule demoState 1 = legacySchedule :=
  (getSchedule_stored_or_zero demoState 1).1 legacySchedule (by decide)

end Vesting
